import Mathlib

/-
Verification of checksymlinks (src/main.go): a single-pass walker that
inspects every filesystem entry under a root directory, counts symbolic
links, classifies them as broken or valid, and optionally removes them
under one of two mutually exclusive policies (delete-all, delete-broken).

The Go program is embedded shallowly: the closure passed to filepath.Walk
(main.go lines 83-135) becomes `walkFunc`, a step function on an explicit
run state; the walk itself becomes `runWalk`, a fold of `walkFunc` over the
sequence of events the walk delivers to the callback; the argument checks
of `main` before the walk (lines 46-73) become `mainRun`. Filesystem
nondeterminism (whether an Lstat, EvalSymlinks or Remove call succeeds on a
given entry) is carried as data on the events, so every outcome of the
external calls is a concrete input to the model.
-/

namespace Checksymlinks

/-- Kind of a filesystem entry as the walk callback observes it: a
directory (info.IsDir()), a symbolic link (Lstat mode has ModeSymlink set;
`broken = true` means filepath.EvalSymlinks on it would fail), or any other
non-directory entry such as a regular file. -/
inductive EntryKind
  | dir
  | file
  | symlink (broken : Bool)
  deriving DecidableEq, Repr

/-- One filesystem entry as delivered to the walk callback, together with
the outcomes of the system calls the callback may make on it: `lstatOk`
is whether os.Lstat(path) succeeds, `removeOk` whether os.Remove(path)
would succeed. -/
structure Entry where
  path : String
  kind : EntryKind
  lstatOk : Bool
  removeOk : Bool
  deriving DecidableEq, Repr

/-- One invocation of the walk callback: either a normal visit of an entry,
or an access error reported by filepath.Walk itself (the `err != nil` case
at main.go line 84). -/
inductive WalkEvent
  | ok (e : Entry)
  | accessErr (path : String)
  deriving DecidableEq, Repr

/-- The two boolean deletion flags (main.go lines 24-25). -/
structure Config where
  delAllLinks : Bool
  delBrokenLinks : Bool
  deriving DecidableEq, Repr

/-- The mutable state of a run: the four counters of main.go lines 76-79,
plus three traces that record the side effects the callback performs:
every os.Remove call (`removeAttempts`), every os.Remove call that
succeeded, i.e. every actual filesystem mutation (`removedPaths`), and
every filepath.EvalSymlinks call (`resolutions`). -/
structure RunState where
  nofErrors : Nat
  nofBrokenLinks : Nat
  nofLinksRemoved : Nat
  nofLinksInspected : Nat
  removeAttempts : List String
  removedPaths : List String
  resolutions : List String
  deriving DecidableEq, Repr

/-- All counters zero, no side effects yet (main.go lines 76-79). -/
def initState : RunState :=
  { nofErrors := 0, nofBrokenLinks := 0, nofLinksRemoved := 0,
    nofLinksInspected := 0, removeAttempts := [], removedPaths := [],
    resolutions := [] }

/-- The closure passed to filepath.Walk (main.go lines 83-135).
`Except.error st` models a fatal outcome with the state reached so far:
returning the access error (which aborts the walk and reaches the
log.Fatalf at line 138), or the log.Fatalf at line 97 when os.Lstat fails.
`Except.ok st` models `return nil`. -/
def walkFunc (cfg : Config) (st : RunState) : WalkEvent → Except RunState RunState
  | .accessErr _ => .error st
  | .ok e =>
    match e.kind with
    | .dir => .ok st
    | .file =>
      if e.lstatOk then .ok st else .error st
    | .symlink broken =>
      if e.lstatOk then
        let st1 := { st with nofLinksInspected := st.nofLinksInspected + 1 }
        if cfg.delAllLinks then
          let st2 := { st1 with removeAttempts := st1.removeAttempts ++ [e.path] }
          let st3 :=
            if e.removeOk then
              { st2 with removedPaths := st2.removedPaths ++ [e.path] }
            else
              { st2 with nofErrors := st2.nofErrors + 1 }
          .ok { st3 with nofLinksRemoved := st3.nofLinksRemoved + 1 }
        else
          let st2 := { st1 with resolutions := st1.resolutions ++ [e.path] }
          if broken then
            let st3 := { st2 with nofBrokenLinks := st2.nofBrokenLinks + 1 }
            if cfg.delBrokenLinks then
              let st4 := { st3 with removeAttempts := st3.removeAttempts ++ [e.path] }
              let st5 :=
                if e.removeOk then
                  { st4 with removedPaths := st4.removedPaths ++ [e.path] }
                else
                  { st4 with nofErrors := st4.nofErrors + 1 }
              .ok { st5 with nofLinksRemoved := st5.nofLinksRemoved + 1 }
            else
              .ok st3
          else
            .ok st2
      else
        .error st

/-- Result of the whole walk: either aborted by a fatal error (with the
state reached at that point) or completed normally. -/
inductive RunResult
  | aborted (st : RunState)
  | completed (st : RunState)
  deriving DecidableEq, Repr

/-- The walk: filepath.Walk delivers the events in order; the first fatal
outcome of the callback aborts the run (main.go lines 83-139). -/
def runWalk (cfg : Config) : RunState → List WalkEvent → RunResult
  | st, [] => .completed st
  | st, ev :: evs =>
    match walkFunc cfg st ev with
    | .error stAbort => .aborted stAbort
    | .ok stNext => runWalk cfg stNext evs

/-- The run state a result carries, whether the walk completed or aborted. -/
def stateOf : RunResult → RunState
  | .aborted st => st
  | .completed st => st

/-- Whether the walk ran to completion (reached the summary at lines 152-155). -/
def isCompleted : RunResult → Bool
  | .aborted _ => false
  | .completed _ => true

/-- Outcome of an invocation of main: usage message and os.Exit(1)
(lines 49-63), log.Fatalf because the root is missing (line 67) or Chdir
failed (line 72), log.Fatalf during or after the walk (lines 97 and 138),
or the final summary (lines 152-158, exit code 0). -/
inductive MainOutcome
  | usageExit1
  | fatalNoRoot
  | fatalChdir
  | fatalWalk (st : RunState)
  | summary (st : RunState)
  deriving DecidableEq, Repr

/-- The control flow of main before and around the walk (main.go lines
46-139): `nPositional` is the number of positional arguments left after
flag parsing, `rootExists` is the negation of os.IsNotExist on the result
of os.Stat(rootDir), `chdirOk` whether os.Chdir(rootDir) succeeds, and
`events` the visits the walk would deliver. -/
def mainRun (nPositional : Nat) (delBroken delAll : Bool)
    (rootExists chdirOk : Bool) (events : List WalkEvent) : MainOutcome :=
  if nPositional > 1 then .usageExit1
  else if nPositional < 1 then .usageExit1
  else if delBroken && delAll then .usageExit1
  else if !rootExists then .fatalNoRoot
  else if !chdirOk then .fatalChdir
  else
    match runWalk { delAllLinks := delAll, delBrokenLinks := delBroken } initState events with
    | .aborted st => .fatalWalk st
    | .completed st => .summary st

/-- Successful removals (filesystem mutations) an invocation performed:
none on any exit before the walk. -/
def removalsOf : MainOutcome → List String
  | .fatalWalk st => st.removedPaths
  | .summary st => st.removedPaths
  | _ => []

/-- Removal attempts an invocation performed: none before the walk. -/
def attemptsOf : MainOutcome → List String
  | .fatalWalk st => st.removeAttempts
  | .summary st => st.removeAttempts
  | _ => []

/-- Symlink-target resolutions an invocation performed: none before the walk. -/
def resolutionsOf : MainOutcome → List String
  | .fatalWalk st => st.resolutions
  | .summary st => st.resolutions
  | _ => []

/-- Whether the invocation ends with a nonzero exit code: every outcome
except the final summary does (os.Exit(1) or log.Fatalf, which exits 1). -/
def exitNonzero : MainOutcome → Bool
  | .summary _ => false
  | _ => true

/-- Whether the event visits a symbolic-link entry. -/
def isSymlinkEvent : WalkEvent → Bool
  | .ok e => match e.kind with | .symlink _ => true | _ => false
  | .accessErr _ => false

/-- Whether the event visits a broken symbolic-link entry. -/
def isBrokenSymlinkEvent : WalkEvent → Bool
  | .ok e => match e.kind with | .symlink broken => broken | _ => false
  | .accessErr _ => false

/-- Path of the entry an event concerns. -/
def pathOf : WalkEvent → String
  | .ok e => e.path
  | .accessErr p => p

/-- Number of symbolic links among the events (the N of the spec). -/
def countSymlinks (evs : List WalkEvent) : Nat :=
  (evs.filter isSymlinkEvent).length

/-- Number of broken symbolic links among the events (the B of the spec). -/
def countBroken (evs : List WalkEvent) : Nat :=
  (evs.filter isBrokenSymlinkEvent).length

/-- Paths of all symbolic-link entries among the events, in walk order. -/
def symlinkPaths (evs : List WalkEvent) : List String :=
  (evs.filter isSymlinkEvent).map pathOf

/-- Paths of all broken symbolic-link entries among the events, in walk order. -/
def brokenSymlinkPaths (evs : List WalkEvent) : List String :=
  (evs.filter isBrokenSymlinkEvent).map pathOf

/-- An event on which no external call fails: not a walk access error, the
entry can be stat'ed, and removing it would succeed. -/
def eventClean : WalkEvent → Bool
  | .accessErr _ => false
  | .ok e => e.lstatOk && e.removeOk

/-- A run encounters no filesystem errors: every event is clean. -/
def noFsErrors (evs : List WalkEvent) : Bool :=
  evs.all eventClean

/-- Concrete walk of the example tree of the spec: a subdirectory, a
regular file, the broken link a -> b (b missing) and the valid link
c -> d (d present), all system calls succeeding. -/
def exEvents : List WalkEvent :=
  [.ok ⟨"sub", .dir, true, true⟩, .ok ⟨"f.txt", .file, true, true⟩,
   .ok ⟨"a", .symlink true, true, true⟩, .ok ⟨"c", .symlink false, true, true⟩]

/-- Final state of a flagless run over `exEvents`. -/
def exFinalNoFlags : RunState :=
  { initState with
      nofLinksInspected := 2, nofBrokenLinks := 1, resolutions := ["a", "c"] }

/-- A single broken-link visit, used to exercise one callback step. -/
def stepEv : WalkEvent := .ok ⟨"s", .symlink true, true, true⟩

/-- State after the callback processes `stepEv` with no flags set. -/
def stepNext : RunState :=
  { initState with
      nofLinksInspected := 1, nofBrokenLinks := 1, resolutions := ["s"] }

/-- A single valid-symlink visit, used to exercise the delete-all policy. -/
def oneLinkEvents : List WalkEvent := [.ok ⟨"x", .symlink false, true, true⟩]

/-- The spec's two-link example exactly: a root holding the broken link
a -> b (b missing) and the valid link c -> d (d present). -/
def linkPairEvents : List WalkEvent :=
  [.ok ⟨"a", .symlink true, true, true⟩, .ok ⟨"c", .symlink false, true, true⟩]

example :
    runWalk { delAllLinks := false, delBrokenLinks := false } initState
      [.ok ⟨"a", .symlink true, true, true⟩, .ok ⟨"c", .symlink false, true, true⟩]
      = .completed { initState with
                      nofLinksInspected := 2, nofBrokenLinks := 1,
                      resolutions := ["a", "c"] } := by
  decide

@[simp] theorem countSymlinks_nil : countSymlinks [] = 0 := rfl

@[simp] theorem countBroken_nil : countBroken [] = 0 := rfl

@[simp] theorem symlinkPaths_nil : symlinkPaths [] = [] := rfl

@[simp] theorem brokenSymlinkPaths_nil : brokenSymlinkPaths [] = [] := rfl

@[simp] theorem countSymlinks_cons (ev : WalkEvent) (evs : List WalkEvent) :
    countSymlinks (ev :: evs) =
      (if isSymlinkEvent ev then 1 else 0) + countSymlinks evs := by
  simp only [countSymlinks, List.filter_cons]
  split <;> simp [Nat.add_comm]

@[simp] theorem countBroken_cons (ev : WalkEvent) (evs : List WalkEvent) :
    countBroken (ev :: evs) =
      (if isBrokenSymlinkEvent ev then 1 else 0) + countBroken evs := by
  simp only [countBroken, List.filter_cons]
  split <;> simp [Nat.add_comm]

@[simp] theorem symlinkPaths_cons (ev : WalkEvent) (evs : List WalkEvent) :
    symlinkPaths (ev :: evs) =
      (if isSymlinkEvent ev then [pathOf ev] else []) ++ symlinkPaths evs := by
  simp only [symlinkPaths, List.filter_cons]
  split <;> simp

@[simp] theorem brokenSymlinkPaths_cons (ev : WalkEvent) (evs : List WalkEvent) :
    brokenSymlinkPaths (ev :: evs) =
      (if isBrokenSymlinkEvent ev then [pathOf ev] else []) ++ brokenSymlinkPaths evs := by
  simp only [brokenSymlinkPaths, List.filter_cons]
  split <;> simp

/-- A fatal outcome of the callback leaves the state exactly as it was:
both fatal branches (the access error and the failed Lstat) fire before
any counter or side effect of the entry. -/
theorem walkFunc_error_eq (cfg : Config) (st : RunState) (ev : WalkEvent)
    (stAbort : RunState) (h : walkFunc cfg st ev = .error stAbort) :
    stAbort = st := by
  rcases cfg with ⟨dAll, dBrk⟩
  cases ev with
  | accessErr p => simp only [walkFunc] at h; exact (Except.error.injEq _ _).mp h |>.symm
  | ok e =>
    rcases e with ⟨p, k, lOk, rOk⟩
    cases k <;> cases lOk <;> cases rOk <;> cases dAll <;> cases dBrk <;>
      simp_all [walkFunc]
    all_goals first | rfl | (rename_i b; cases b <;> simp_all)

/-- With neither deletion flag set, a completed walk adds the number of
symlink events to the inspected counter and the number of broken symlink
events to the broken counter, and touches nothing else: no errors, no
removals, no removal attempts, no mutation. -/
theorem runWalk_noflags_spec (evs : List WalkEvent) :
    ∀ st stFin : RunState,
      runWalk { delAllLinks := false, delBrokenLinks := false } st evs
        = .completed stFin →
      stFin.nofErrors = st.nofErrors ∧
      stFin.nofBrokenLinks = st.nofBrokenLinks + countBroken evs ∧
      stFin.nofLinksRemoved = st.nofLinksRemoved ∧
      stFin.nofLinksInspected = st.nofLinksInspected + countSymlinks evs ∧
      stFin.removeAttempts = st.removeAttempts ∧
      stFin.removedPaths = st.removedPaths := by
  induction evs with
  | nil =>
    intro st stFin h
    simp only [runWalk, RunResult.completed.injEq] at h
    subst h
    simp
  | cons ev evs ih =>
    intro st stFin h
    cases ev with
    | accessErr p => simp [runWalk, walkFunc] at h
    | ok e =>
      rcases e with ⟨p, k, lOk, rOk⟩
      cases k with
      | dir =>
        simp only [runWalk, walkFunc] at h
        have hx := ih _ _ h
        simp_all [isSymlinkEvent, isBrokenSymlinkEvent]
      | file =>
        cases lOk with
        | false => simp [runWalk, walkFunc] at h
        | true =>
          simp only [runWalk, walkFunc] at h
          have hx := ih _ _ h
          simp_all [isSymlinkEvent, isBrokenSymlinkEvent]
      | symlink b =>
        cases lOk with
        | false => simp [runWalk, walkFunc] at h
        | true =>
          cases b with
          | false =>
            simp only [runWalk, walkFunc, Bool.false_eq_true, if_false, if_true] at h
            have hx := ih _ _ h
            simp_all [isSymlinkEvent, isBrokenSymlinkEvent]
            omega
          | true =>
            simp only [runWalk, walkFunc, if_false, if_true] at h
            have hx := ih _ _ h
            simp_all [isSymlinkEvent, isBrokenSymlinkEvent]
            omega

/-- With neither deletion flag set, the errors counter never moves, whether
the walk completes or aborts: the only two increments of nofErrors in the
source sit inside the two removal branches, each guarded by its flag. -/
theorem runWalk_noflags_errors (evs : List WalkEvent) :
    ∀ st : RunState,
      (stateOf (runWalk { delAllLinks := false, delBrokenLinks := false } st evs)).nofErrors
        = st.nofErrors := by
  induction evs with
  | nil => intro st; rfl
  | cons ev evs ih =>
    intro st
    cases ev with
    | accessErr p => simp [runWalk, walkFunc, stateOf]
    | ok e =>
      rcases e with ⟨p, k, lOk, rOk⟩
      cases k with
      | dir => simpa [runWalk, walkFunc] using ih st
      | file => cases lOk <;> simp_all [runWalk, walkFunc, stateOf]
      | symlink b =>
        cases lOk with
        | false => simp [runWalk, walkFunc, stateOf]
        | true => cases b <;> simp_all [runWalk, walkFunc, stateOf]

/-- With the delete-all flag set and no filesystem errors, the walk
completes, having attempted and performed exactly one removal per symlink
event, counted each symlink once in inspected and once in removed, and
never called EvalSymlinks (classification is skipped). -/
theorem runWalk_delall_clean (dBrk : Bool) (evs : List WalkEvent) :
    ∀ st : RunState, noFsErrors evs = true →
      runWalk { delAllLinks := true, delBrokenLinks := dBrk } st evs =
        .completed { st with
                      nofLinksInspected := st.nofLinksInspected + countSymlinks evs,
                      nofLinksRemoved := st.nofLinksRemoved + countSymlinks evs,
                      removeAttempts := st.removeAttempts ++ symlinkPaths evs,
                      removedPaths := st.removedPaths ++ symlinkPaths evs } := by
  induction evs with
  | nil => intro st _; simp [runWalk]
  | cons ev evs ih =>
    intro st h
    simp only [noFsErrors, List.all_cons, Bool.and_eq_true] at h
    obtain ⟨h1, h2⟩ := h
    have h2a : noFsErrors evs = true := by simpa [noFsErrors] using h2
    cases ev with
    | accessErr p => simp [eventClean] at h1
    | ok e =>
      rcases e with ⟨p, k, lOk, rOk⟩
      simp only [eventClean, Bool.and_eq_true] at h1
      obtain ⟨hl, hr⟩ := h1
      subst hl; subst hr
      cases k with
      | dir =>
        simp only [runWalk, walkFunc]
        rw [ih _ h2a]
        simp [isSymlinkEvent]
      | file =>
        simp [runWalk, walkFunc, isSymlinkEvent]
        rw [ih _ h2a]
      | symlink b =>
        simp [runWalk, walkFunc, isSymlinkEvent, pathOf]
        rw [ih _ h2a]
        simp only [RunResult.completed.injEq, RunState.mk.injEq, List.append_assoc,
          List.singleton_append, List.cons_append, List.nil_append, and_true, true_and]
        omega

/-- With only the delete-broken flag set and no filesystem errors, the walk
completes, having resolved every symlink, counted broken ones in the broken
counter, and attempted and performed exactly one removal per broken
symlink; valid symlinks are untouched. -/
theorem runWalk_delbroken_clean (evs : List WalkEvent) :
    ∀ st : RunState, noFsErrors evs = true →
      runWalk { delAllLinks := false, delBrokenLinks := true } st evs =
        .completed { st with
                      nofLinksInspected := st.nofLinksInspected + countSymlinks evs,
                      nofBrokenLinks := st.nofBrokenLinks + countBroken evs,
                      nofLinksRemoved := st.nofLinksRemoved + countBroken evs,
                      removeAttempts := st.removeAttempts ++ brokenSymlinkPaths evs,
                      removedPaths := st.removedPaths ++ brokenSymlinkPaths evs,
                      resolutions := st.resolutions ++ symlinkPaths evs } := by
  induction evs with
  | nil => intro st _; simp [runWalk]
  | cons ev evs ih =>
    intro st h
    simp only [noFsErrors, List.all_cons, Bool.and_eq_true] at h
    obtain ⟨h1, h2⟩ := h
    have h2a : noFsErrors evs = true := by simpa [noFsErrors] using h2
    cases ev with
    | accessErr p => simp [eventClean] at h1
    | ok e =>
      rcases e with ⟨p, k, lOk, rOk⟩
      simp only [eventClean, Bool.and_eq_true] at h1
      obtain ⟨hl, hr⟩ := h1
      subst hl; subst hr
      cases k with
      | dir =>
        simp only [runWalk, walkFunc]
        rw [ih _ h2a]
        simp [isSymlinkEvent, isBrokenSymlinkEvent]
      | file =>
        simp [runWalk, walkFunc, isSymlinkEvent, isBrokenSymlinkEvent]
        rw [ih _ h2a]
      | symlink b =>
        cases b with
        | false =>
          simp [runWalk, walkFunc, isSymlinkEvent, isBrokenSymlinkEvent, pathOf]
          rw [ih _ h2a]
          simp only [RunResult.completed.injEq, RunState.mk.injEq, List.append_assoc,
            List.singleton_append, List.cons_append, List.nil_append, and_true, true_and]
          omega
        | true =>
          simp [runWalk, walkFunc, isSymlinkEvent, isBrokenSymlinkEvent, pathOf]
          rw [ih _ h2a]
          simp only [RunResult.completed.injEq, RunState.mk.injEq, List.append_assoc,
            List.singleton_append, List.cons_append, List.nil_append, and_true, true_and]
          omega

/-- Per-entry counter discipline of the callback: a non-fatal step adds
exactly one to inspected when the entry is a symlink and nothing otherwise,
and adds at most one to each of removed and broken, never decreasing them. -/
theorem walkFunc_ok_counters (cfg : Config) (st : RunState) (ev : WalkEvent)
    (stNext : RunState) (h : walkFunc cfg st ev = .ok stNext) :
    stNext.nofLinksInspected
        = st.nofLinksInspected + (if isSymlinkEvent ev then 1 else 0) ∧
    stNext.nofLinksRemoved
        ≤ st.nofLinksRemoved + (if isSymlinkEvent ev then 1 else 0) ∧
    stNext.nofBrokenLinks
        ≤ st.nofBrokenLinks + (if isSymlinkEvent ev then 1 else 0) ∧
    st.nofLinksRemoved ≤ stNext.nofLinksRemoved ∧
    st.nofBrokenLinks ≤ stNext.nofBrokenLinks := by
  rcases cfg with ⟨dAll, dBrk⟩
  cases ev with
  | accessErr p => simp [walkFunc] at h
  | ok e =>
    rcases e with ⟨p, k, lOk, rOk⟩
    cases k with
    | dir => simp_all [walkFunc, isSymlinkEvent]
    | file => cases lOk <;> simp_all [walkFunc, isSymlinkEvent]
    | symlink b =>
      cases lOk <;> cases rOk <;> cases dAll <;> cases dBrk <;> cases b <;>
        simp_all [walkFunc, isSymlinkEvent]
      all_goals subst h
      all_goals simp

/-- Counter invariant, preserved through the whole walk for any
configuration: removed never exceeds inspected and broken never exceeds
inspected, whether the walk completes or aborts. -/
theorem runWalk_counters_le (cfg : Config) (evs : List WalkEvent) :
    ∀ st : RunState,
      st.nofLinksRemoved ≤ st.nofLinksInspected →
      st.nofBrokenLinks ≤ st.nofLinksInspected →
      (stateOf (runWalk cfg st evs)).nofLinksRemoved
          ≤ (stateOf (runWalk cfg st evs)).nofLinksInspected ∧
      (stateOf (runWalk cfg st evs)).nofBrokenLinks
          ≤ (stateOf (runWalk cfg st evs)).nofLinksInspected := by
  induction evs with
  | nil => intro st h1 h2; exact ⟨h1, h2⟩
  | cons ev evs ih =>
    intro st h1 h2
    cases hw : walkFunc cfg st ev with
    | error stAbort =>
      have he := walkFunc_error_eq cfg st ev stAbort hw
      subst he
      simp only [runWalk, hw, stateOf]
      exact ⟨h1, h2⟩
    | ok stNext =>
      have hc := walkFunc_ok_counters cfg st ev stNext hw
      simp only [runWalk, hw]
      cases hs : isSymlinkEvent ev <;> simp only [hs] at hc <;> simp at hc <;>
        exact ih stNext (by omega) (by omega)

/-- Per-entry mutation discipline of the callback: a non-fatal step either
leaves the removal traces untouched, or — only when one of the two deletion
flags is set and the entry is a symlink — records exactly one removal
attempt on the entry path, with the successful-removal trace gaining at
most that same path. -/
theorem walkFunc_mutation (cfg : Config) (st : RunState) (ev : WalkEvent)
    (stNext : RunState) (h : walkFunc cfg st ev = .ok stNext) :
    (stNext.removeAttempts = st.removeAttempts ∧
      stNext.removedPaths = st.removedPaths) ∨
    ((cfg.delAllLinks || cfg.delBrokenLinks) = true ∧
      isSymlinkEvent ev = true ∧
      stNext.removeAttempts = st.removeAttempts ++ [pathOf ev] ∧
      (stNext.removedPaths = st.removedPaths ∨
        stNext.removedPaths = st.removedPaths ++ [pathOf ev])) := by
  rcases cfg with ⟨dAll, dBrk⟩
  cases ev with
  | accessErr p => simp [walkFunc] at h
  | ok e =>
    rcases e with ⟨p, k, lOk, rOk⟩
    cases k with
    | dir => simp_all [walkFunc]
    | file => cases lOk <;> simp_all [walkFunc]
    | symlink b =>
      cases lOk <;> cases rOk <;> cases dAll <;> cases dBrk <;> cases b <;>
        simp_all [walkFunc, isSymlinkEvent, pathOf]
      all_goals subst h
      all_goals simp

/-- Provenance of removal attempts and mutations over a whole walk: any
path in either trace at the end was in the trace at the start, or is the
path of a symlink event of the walk, with at least one deletion flag set. -/
theorem runWalk_mutation_from (cfg : Config) (evs : List WalkEvent) :
    ∀ st : RunState, ∀ p : String,
      (p ∈ (stateOf (runWalk cfg st evs)).removeAttempts ∨
        p ∈ (stateOf (runWalk cfg st evs)).removedPaths) →
      (p ∈ st.removeAttempts ∨ p ∈ st.removedPaths) ∨
        ((cfg.delAllLinks || cfg.delBrokenLinks) = true ∧ p ∈ symlinkPaths evs) := by
  induction evs with
  | nil => intro st p h; exact Or.inl h
  | cons ev evs ih =>
    intro st p h
    cases hw : walkFunc cfg st ev with
    | error stAbort =>
      have he := walkFunc_error_eq cfg st ev stAbort hw
      subst he
      simp only [runWalk, hw, stateOf] at h
      exact Or.inl h
    | ok stNext =>
      simp only [runWalk, hw] at h
      rcases ih stNext p h with hin | ⟨hflag, hmem⟩
      · rcases walkFunc_mutation cfg st ev stNext hw with
          ⟨ha, hb⟩ | ⟨hflag, hsym, ha, hb⟩
        · rw [ha, hb] at hin
          exact Or.inl hin
        · rcases hin with hin | hin
          · rw [ha] at hin
            rcases List.mem_append.mp hin with hin | hin
            · exact Or.inl (Or.inl hin)
            · refine Or.inr ⟨hflag, ?_⟩
              simp [hsym, List.mem_singleton.mp hin]
          · rcases hb with hb | hb
            · rw [hb] at hin
              exact Or.inl (Or.inr hin)
            · rw [hb] at hin
              rcases List.mem_append.mp hin with hin | hin
              · exact Or.inl (Or.inr hin)
              · refine Or.inr ⟨hflag, ?_⟩
                simp [hsym, List.mem_singleton.mp hin]
      · refine Or.inr ⟨hflag, ?_⟩
        simp only [symlinkPaths_cons, List.mem_append]
        exact Or.inr hmem

/-- C1: evaluation of the embedded code at the failing inputs. Under
delete-all, one symlink whose os.Remove fails: the removal failed
(nofErrors = 1, removedPaths empty, so nothing was mutated), yet
nofLinksRemoved ends at 1. Under delete-broken, one broken symlink whose
os.Remove fails: likewise nofLinksRemoved ends at 1. The source increments
nofLinksRemoved outside the error check in both removal branches (main.go
lines 106-111 and 122-127), so the removed counter counts removal
attempts, not successful removals, contradicting the claim that removed is
incremented only on success. -/
theorem c1_removed_counts_failed_removals :
    stateOf (runWalk { delAllLinks := true, delBrokenLinks := false } initState
        [.ok ⟨"lnk", .symlink false, true, false⟩])
      = { initState with
            nofLinksInspected := 1, nofLinksRemoved := 1, nofErrors := 1,
            removeAttempts := ["lnk"] } ∧
    stateOf (runWalk { delAllLinks := false, delBrokenLinks := true } initState
        [.ok ⟨"blk", .symlink true, true, false⟩])
      = { initState with
            nofLinksInspected := 1, nofBrokenLinks := 1, nofLinksRemoved := 1,
            nofErrors := 1, removeAttempts := ["blk"], resolutions := ["blk"] } :=
  ⟨rfl, rfl⟩

/-- C2: a flagless run that completes the walk over a tree with N symlink
entries, B of them broken, ends with inspected = N, broken = B,
removed = 0, and neither attempts nor performs any removal, so no
filesystem entry is mutated. -/
theorem c2_noflags_counts (evs : List WalkEvent) (stFin : RunState)
    (h : runWalk { delAllLinks := false, delBrokenLinks := false } initState evs
          = .completed stFin) :
    stFin.nofLinksInspected = countSymlinks evs ∧
    stFin.nofBrokenLinks = countBroken evs ∧
    stFin.nofLinksRemoved = 0 ∧
    stFin.removeAttempts = [] ∧
    stFin.removedPaths = [] := by
  obtain ⟨h1, h2, h3, h4, h5, h6⟩ := runWalk_noflags_spec evs initState stFin h
  refine ⟨?_, ?_, ?_, ?_, ?_⟩ <;> simp_all [initState]

/-- Witness for C2: the flagless run over the example tree (one dir, one
file, broken link a, valid link c) completes with inspected = 2,
broken = 1, removed = 0 and no mutation. -/
theorem c2_noflags_counts_witness :
    (runWalk { delAllLinks := false, delBrokenLinks := false } initState exEvents
        = .completed exFinalNoFlags) ∧
    (exFinalNoFlags.nofLinksInspected = countSymlinks exEvents ∧
     exFinalNoFlags.nofBrokenLinks = countBroken exEvents ∧
     exFinalNoFlags.nofLinksRemoved = 0 ∧
     exFinalNoFlags.removeAttempts = [] ∧
     exFinalNoFlags.removedPaths = []) :=
  ⟨rfl, c2_noflags_counts exEvents exFinalNoFlags rfl⟩

/-- C3: a delete-all run over a tree with N symlink entries and no
filesystem errors completes the walk, ends with inspected = N and
removed = N, removes every symlink (the successful-removal trace is
exactly the symlink paths, so zero symlinks remain), never calls
EvalSymlinks (no target resolution, classification skipped), and ends with
broken = 0. -/
theorem c3_delall_removes_all (evs : List WalkEvent) (h : noFsErrors evs = true) :
    isCompleted (runWalk { delAllLinks := true, delBrokenLinks := false } initState evs)
        = true ∧
    (stateOf (runWalk { delAllLinks := true, delBrokenLinks := false } initState evs)).nofLinksInspected
        = countSymlinks evs ∧
    (stateOf (runWalk { delAllLinks := true, delBrokenLinks := false } initState evs)).nofLinksRemoved
        = countSymlinks evs ∧
    (stateOf (runWalk { delAllLinks := true, delBrokenLinks := false } initState evs)).removedPaths
        = symlinkPaths evs ∧
    (stateOf (runWalk { delAllLinks := true, delBrokenLinks := false } initState evs)).removeAttempts
        = symlinkPaths evs ∧
    (stateOf (runWalk { delAllLinks := true, delBrokenLinks := false } initState evs)).resolutions
        = [] ∧
    (stateOf (runWalk { delAllLinks := true, delBrokenLinks := false } initState evs)).nofBrokenLinks
        = 0 := by
  rw [runWalk_delall_clean false evs initState h]
  simp [isCompleted, stateOf, initState]

/-- Witness for C3: the delete-all run over the example tree completes with
its 2 links inspected and removed and no resolution performed. -/
theorem c3_delall_removes_all_witness :
    noFsErrors exEvents = true ∧
    isCompleted (runWalk { delAllLinks := true, delBrokenLinks := false } initState exEvents)
        = true ∧
    (stateOf (runWalk { delAllLinks := true, delBrokenLinks := false } initState exEvents)).removedPaths
        = symlinkPaths exEvents ∧
    symlinkPaths exEvents = ["a", "c"] :=
  ⟨rfl, (c3_delall_removes_all exEvents rfl).1,
   (c3_delall_removes_all exEvents rfl).2.2.2.1, rfl⟩

/-- C4: a delete-broken run with no filesystem errors attempts and performs
removal exactly on the broken symlinks (the attempt and mutation traces
both equal the broken-symlink paths, so every valid link is untouched),
with removed = broken = the number of broken links. -/
theorem c4_delbroken_removes_exactly_broken (evs : List WalkEvent)
    (h : noFsErrors evs = true) :
    isCompleted (runWalk { delAllLinks := false, delBrokenLinks := true } initState evs)
        = true ∧
    (stateOf (runWalk { delAllLinks := false, delBrokenLinks := true } initState evs)).removedPaths
        = brokenSymlinkPaths evs ∧
    (stateOf (runWalk { delAllLinks := false, delBrokenLinks := true } initState evs)).removeAttempts
        = brokenSymlinkPaths evs ∧
    (stateOf (runWalk { delAllLinks := false, delBrokenLinks := true } initState evs)).nofLinksRemoved
        = countBroken evs ∧
    (stateOf (runWalk { delAllLinks := false, delBrokenLinks := true } initState evs)).nofBrokenLinks
        = countBroken evs ∧
    (stateOf (runWalk { delAllLinks := false, delBrokenLinks := true } initState evs)).nofLinksInspected
        = countSymlinks evs := by
  rw [runWalk_delbroken_clean evs initState h]
  simp [isCompleted, stateOf, initState]

/-- Witness for C4 at the spec's own example: a root with broken link a and
valid link c; the delete-broken run removes exactly a, leaves c, and ends
with removed = 1 and broken = 1. -/
theorem c4_delbroken_removes_exactly_broken_witness :
    noFsErrors linkPairEvents = true ∧
    (stateOf (runWalk { delAllLinks := false, delBrokenLinks := true } initState linkPairEvents)).removedPaths
        = brokenSymlinkPaths linkPairEvents ∧
    brokenSymlinkPaths linkPairEvents = ["a"] ∧
    (stateOf (runWalk { delAllLinks := false, delBrokenLinks := true } initState linkPairEvents)).nofLinksRemoved
        = countBroken linkPairEvents ∧
    (stateOf (runWalk { delAllLinks := false, delBrokenLinks := true } initState linkPairEvents)).nofBrokenLinks
        = countBroken linkPairEvents ∧
    countBroken linkPairEvents = 1 :=
  ⟨rfl, (c4_delbroken_removes_exactly_broken linkPairEvents rfl).2.1, rfl,
   (c4_delbroken_removes_exactly_broken linkPairEvents rfl).2.2.2.1,
   (c4_delbroken_removes_exactly_broken linkPairEvents rfl).2.2.2.2.1, rfl⟩

/-- C5: counter invariants of the walk, for every configuration. At the
end of any run (completed or aborted) over any event sequence — hence at
every intermediate point, each being the end of the run over a prefix —
removed never exceeds inspected and broken never exceeds inspected; and
each callback step adds exactly one to inspected when the visited entry is
a symlink and exactly zero otherwise, whether the step is non-fatal or
fatal. -/
theorem c5_counter_invariants (cfg : Config) (evs : List WalkEvent) :
    ((stateOf (runWalk cfg initState evs)).nofLinksRemoved
        ≤ (stateOf (runWalk cfg initState evs)).nofLinksInspected ∧
      (stateOf (runWalk cfg initState evs)).nofBrokenLinks
        ≤ (stateOf (runWalk cfg initState evs)).nofLinksInspected) ∧
    (∀ st stNext : RunState, ∀ ev : WalkEvent,
      walkFunc cfg st ev = .ok stNext →
      stNext.nofLinksInspected
        = st.nofLinksInspected + (if isSymlinkEvent ev then 1 else 0)) ∧
    (∀ st stAbort : RunState, ∀ ev : WalkEvent,
      walkFunc cfg st ev = .error stAbort →
      stAbort.nofLinksInspected = st.nofLinksInspected) := by
  refine ⟨runWalk_counters_le cfg evs initState (by simp [initState])
      (by simp [initState]), ?_, ?_⟩
  · intro st stNext ev h
    exact (walkFunc_ok_counters cfg st ev stNext h).1
  · intro st stAbort ev h
    rw [walkFunc_error_eq cfg st ev stAbort h]

/-- Witness for C5: the invariant at the end of a one-broken-link flagless
run, and the exactly-one increment of inspected on that step. -/
theorem c5_counter_invariants_witness :
    ((stateOf (runWalk { delAllLinks := false, delBrokenLinks := false } initState [stepEv])).nofLinksRemoved
        ≤ (stateOf (runWalk { delAllLinks := false, delBrokenLinks := false } initState [stepEv])).nofLinksInspected ∧
      (stateOf (runWalk { delAllLinks := false, delBrokenLinks := false } initState [stepEv])).nofBrokenLinks
        ≤ (stateOf (runWalk { delAllLinks := false, delBrokenLinks := false } initState [stepEv])).nofLinksInspected) ∧
    (walkFunc { delAllLinks := false, delBrokenLinks := false } initState stepEv
        = .ok stepNext ∧
      stepNext.nofLinksInspected
        = initState.nofLinksInspected + (if isSymlinkEvent stepEv then 1 else 0)) :=
  ⟨(c5_counter_invariants { delAllLinks := false, delBrokenLinks := false } [stepEv]).1,
   rfl,
   (c5_counter_invariants { delAllLinks := false, delBrokenLinks := false } [stepEv]).2.1
     initState stepNext stepEv rfl⟩

/-- C6: an invocation with both deletion flags set ends in the usage
message and os.Exit(1) for every argument count, root state and walk
content: the check at main.go lines 59-63 (and the positional-argument
checks before it) fires before the walk, so no removal is attempted, no
entry is mutated and no entry is resolved for classification. -/
theorem c6_both_flags_usage_exit (nPositional : Nat) (rootExists chdirOk : Bool)
    (events : List WalkEvent) :
    mainRun nPositional true true rootExists chdirOk events = .usageExit1 ∧
    removalsOf (mainRun nPositional true true rootExists chdirOk events) = [] ∧
    attemptsOf (mainRun nPositional true true rootExists chdirOk events) = [] ∧
    resolutionsOf (mainRun nPositional true true rootExists chdirOk events) = [] := by
  have h : mainRun nPositional true true rootExists chdirOk events = .usageExit1 := by
    simp [mainRun]
  refine ⟨h, ?_, ?_, ?_⟩ <;> rw [h] <;> rfl

/-- C7: an invocation whose root path does not exist (os.Stat reports
IsNotExist) ends with a nonzero exit — either a usage exit from the earlier
argument checks or the log.Fatalf of main.go line 67 — and performs no
removal attempt and no mutation. -/
theorem c7_missing_root_nonzero_exit (nPositional : Nat)
    (delBroken delAll chdirOk : Bool) (events : List WalkEvent) :
    exitNonzero (mainRun nPositional delBroken delAll false chdirOk events) = true ∧
    removalsOf (mainRun nPositional delBroken delAll false chdirOk events) = [] ∧
    attemptsOf (mainRun nPositional delBroken delAll false chdirOk events) = [] := by
  cases hb : delBroken && delAll <;>
    by_cases h1 : nPositional > 1 <;> by_cases h2 : nPositional < 1 <;>
      simp [mainRun, h1, h2, hb, exitNonzero, removalsOf, attemptsOf]

/-- C8: the program attempts a removal, and a fortiori mutates the
filesystem, only on paths of entries whose link-aware status is a symbolic
link, and only when one of the two deletion flags is set; directories and
regular files are never touched. -/
theorem c8_mutation_only_symlinks_under_policy (cfg : Config)
    (evs : List WalkEvent) (p : String)
    (h : p ∈ (stateOf (runWalk cfg initState evs)).removeAttempts ∨
         p ∈ (stateOf (runWalk cfg initState evs)).removedPaths) :
    (cfg.delAllLinks || cfg.delBrokenLinks) = true ∧ p ∈ symlinkPaths evs := by
  rcases runWalk_mutation_from cfg evs initState p h with hin | hgood
  · simp [initState] at hin
  · exact hgood

/-- Witness for C8: the path removed by a delete-all run over a single
valid symlink x is indeed the path of a symlink entry, under a set flag. -/
theorem c8_mutation_only_symlinks_under_policy_witness :
    ("x" ∈ (stateOf (runWalk { delAllLinks := true, delBrokenLinks := false } initState oneLinkEvents)).removeAttempts ∨
      "x" ∈ (stateOf (runWalk { delAllLinks := true, delBrokenLinks := false } initState oneLinkEvents)).removedPaths) ∧
    (((({ delAllLinks := true, delBrokenLinks := false } : Config)).delAllLinks
        || (({ delAllLinks := true, delBrokenLinks := false } : Config)).delBrokenLinks) = true ∧
      "x" ∈ symlinkPaths oneLinkEvents) :=
  ⟨Or.inl (by decide),
   c8_mutation_only_symlinks_under_policy
     { delAllLinks := true, delBrokenLinks := false } oneLinkEvents "x"
     (Or.inl (by decide))⟩

/-- C9 counterexample: a flagless run whose first event is a non-directory
entry that vanished between enumeration and classification (its Lstat
fails), followed by a symlink. The claim says the run continues to the next
entry; the code instead hits the log.Fatalf of main.go line 97, so the walk
aborts on the spot with the initial state and the following symlink is
never inspected. -/
theorem c9_counterexample_lstat_is_fatal :
    runWalk { delAllLinks := false, delBrokenLinks := false } initState
        [.ok ⟨"gone", .file, false, true⟩, .ok ⟨"lnk", .symlink true, true, true⟩]
      = .aborted initState ∧
    (stateOf (runWalk { delAllLinks := false, delBrokenLinks := false } initState
        [.ok ⟨"gone", .file, false, true⟩, .ok ⟨"lnk", .symlink true, true, true⟩])).nofLinksInspected
      = 0 :=
  ⟨rfl, rfl⟩

/-- C9 (amended): an entry that vanishes before inspection — any
non-directory entry whose Lstat during classification fails — aborts the
whole run with a fatal error, exactly like a walk-level access error on the
same path; the run does not continue to the next entry. Per-entry,
recoverable treatment applies only to symlink-resolution and removal
failures. -/
theorem c9_amended_lstat_failure_aborts (cfg : Config) (st : RunState)
    (e : Entry) (rest : List WalkEvent)
    (h1 : e.kind ≠ .dir) (h2 : e.lstatOk = false) :
    runWalk cfg st (.ok e :: rest) = .aborted st ∧
    runWalk cfg st (.accessErr e.path :: rest) = .aborted st := by
  rcases e with ⟨p, k, lOk, rOk⟩
  simp only at h2
  subst h2
  cases k with
  | dir => exact absurd rfl h1
  | file => exact ⟨rfl, rfl⟩
  | symlink b => exact ⟨rfl, rfl⟩

/-- Witness for C9 (amended): a vanished regular-file entry aborts a
flagless run immediately. -/
theorem c9_amended_lstat_failure_aborts_witness :
    ((⟨"gone", .file, false, true⟩ : Entry).kind ≠ .dir) ∧
    ((⟨"gone", .file, false, true⟩ : Entry).lstatOk = false) ∧
    (runWalk { delAllLinks := false, delBrokenLinks := false } initState
        [.ok ⟨"gone", .file, false, true⟩] = .aborted initState ∧
     runWalk { delAllLinks := false, delBrokenLinks := false } initState
        [.accessErr "gone"] = .aborted initState) :=
  ⟨by decide, rfl,
   c9_amended_lstat_failure_aborts { delAllLinks := false, delBrokenLinks := false }
     initState ⟨"gone", .file, false, true⟩ [] (by decide) rfl⟩

/-- C10: with neither deletion flag set the errors counter ends at 0 for
every run, completed or aborted: nofErrors is incremented only inside the
two removal-failure branches, each guarded by its deletion flag, and no
removal is attempted without a flag; a resolution failure increments only
the broken counter. -/
theorem c10_noflags_errors_zero (evs : List WalkEvent) :
    (stateOf (runWalk { delAllLinks := false, delBrokenLinks := false } initState evs)).nofErrors
        = 0 := by
  have h := runWalk_noflags_errors evs initState
  simpa [initState] using h

end Checksymlinks
